import Mathlib

/-!
Shallow embedding of the `sheet2json` record converter (`src/src/index.ts`,
with the repository's JavaScript copy of the same class embedded alongside
for comparison).  Cell values of the spreadsheet grid are
string / number / boolean / null; JavaScript numbers are modelled as exact
rationals (the converter never computes with them, it only produces them
from digit strings).  JavaScript objects with string keys are modelled as
insertion-ordered association lists, and `obj[k] = v` as
insert-or-overwrite-in-place (`jsObjSet`).  Thrown errors are modelled with
`Except String`.
-/

namespace Sheet2Json

/-- A spreadsheet cell value: `string | number | boolean | null`. -/
inductive Cell where
  | str (s : String)
  | num (q : ℚ)
  | bool (b : Bool)
  | null
deriving DecidableEq, Repr

/-- `SheetData`: the 2-D grid of one sheet (rows of cells). -/
abbrev SheetData := List (List Cell)

/-- One output record: a JavaScript object with string keys, in insertion
order. -/
abbrev JRecord := List (String × Cell)

/-- `JsonSheetData`: sheet name to list of records, in insertion order. -/
abbrev RecordSet := List (String × List JRecord)

/-- Numeric value of an ASCII digit character. -/
def digitVal (c : Char) : ℕ := c.toNat - 48

/-- Base-10 value of a digit string, as `parseInt(s, 10)` computes it on a
string of digits (left fold, most significant first). -/
def digitsToNat (l : List Char) : ℕ := l.foldl (fun a c => 10 * a + digitVal c) 0

/-- The test `/^\d+$/.test(value)`: one or more ASCII digits. -/
def matchesIntRe (s : String) : Bool := !s.data.isEmpty && s.data.all Char.isDigit

/-- The test `/^\d*\.\d+$/.test(value)`: zero or more digits, a dot, one or
more digits.  The greedy `\d*` takes the maximal digit prefix; backtracking
can never help because giving a digit back makes the `\.` fail, so taking
the maximal prefix is exact. -/
def floatReTest (l : List Char) : Bool :=
  match l.drop (l.takeWhile Char.isDigit).length with
  | '.' :: rest => !rest.isEmpty && rest.all Char.isDigit
  | _ => false

/-- `/^\d*\.\d+$/.test(value)`, applied to the string's characters. -/
def matchesFloatRe (s : String) : Bool := floatReTest s.data

/-- Value of `parseFloat` on characters matching `^\d*\.\d+$`, as an exact
rational: the digit prefix plus the fraction digits over `10 ^ (their
count)`. -/
def floatReValChars (l : List Char) : ℚ :=
  match l.drop (l.takeWhile Char.isDigit).length with
  | _ :: rest =>
    (digitsToNat (l.takeWhile Char.isDigit) : ℚ) + (digitsToNat rest : ℚ) / (10 : ℚ) ^ rest.length
  | [] => 0

/-- Value of `parseFloat(value)` on a string matching `^\d*\.\d+$`. -/
def floatReVal (s : String) : ℚ := floatReValChars s.data

/-- `value.toLowerCase()` restricted to ASCII (the only case the converter
distinguishes is `"true"` / `"false"`). -/
def jsToLower (s : String) : String := ⟨s.data.map Char.toLower⟩

/-- `parseValue` from `src/src/index.ts`: null/undefined to null; digit
strings to integers; `\d*\.\d+` strings to floats; case-insensitive
`"true"`/`"false"` to booleans; everything else unchanged. -/
def parseValue : Cell → Cell
  | Cell.null => Cell.null
  | Cell.str s =>
    if matchesIntRe s then Cell.num (digitsToNat s.data)
    else if matchesFloatRe s then Cell.num (floatReVal s)
    else if jsToLower s = "true" then Cell.bool true
    else if jsToLower s = "false" then Cell.bool false
    else Cell.str s
  | v => v

/-- JavaScript `s.trim()`: strip leading and trailing whitespace (modelled
for ASCII whitespace, which is all the converter distinguishes). -/
def jsTrim (s : String) : String :=
  ⟨((s.data.dropWhile Char.isWhitespace).reverse.dropWhile Char.isWhitespace).reverse⟩

/-- The loop body of `validateHeaders`, carrying the `seen` set of raw
(untrimmed) header strings already accepted. -/
def validateHeadersAux : List Cell → List String → Bool
  | [], _ => true
  | h :: rest, seen =>
    match h with
    | Cell.str s =>
      if jsTrim s = "" then false
      else if seen.contains s then false
      else validateHeadersAux rest (s :: seen)
    | _ => false

/-- `validateHeaders` from `src/src/index.ts`: every header cell is a
string, non-empty after trimming, and no raw string repeats. -/
def validateHeaders (headers : List Cell) : Bool := validateHeadersAux headers []

/-- JavaScript `obj[k] = v` on a string-keyed object: overwrite in place if
the key is present, else append. -/
def jsObjSet (obj : JRecord) (k : String) (v : Cell) : JRecord :=
  if obj.any (fun p => p.1 = k) then obj.map (fun p => if p.1 = k then (k, v) else p)
  else obj ++ [(k, v)]

/-- The reducer body of the TypeScript source (line 107):
`if (headers[index] === "string") obj[headers[index]] = parseValue(value)` —
a strict equality between the header CELL and the string literal
`"string"`, not a `typeof` test. -/
def tsStep (headers : List Cell) (obj : JRecord) (i : ℕ) (v : Cell) : JRecord :=
  match headers.get? i with
  | some (Cell.str s) => if s = "string" then jsObjSet obj s (parseValue v) else obj
  | _ => obj

/-- The reducer body of the repository's JavaScript copy of the class:
`if (typeof headers[index] === "string") obj[headers[index]] = parseValue(value)`. -/
def jsStep (headers : List Cell) (obj : JRecord) (i : ℕ) (v : Cell) : JRecord :=
  match headers.get? i with
  | some (Cell.str s) => jsObjSet obj s (parseValue v)
  | _ => obj

/-- `row.reduce(step, {})` with the element index threaded through. -/
def jsReduce (step : JRecord → ℕ → Cell → JRecord) : List Cell → ℕ → JRecord → JRecord
  | [], _, obj => obj
  | v :: vs, i, obj => jsReduce step vs (i + 1) (step obj i v)

/-- One data row to one record, as the TypeScript source computes it. -/
def rowToRecordTS (headers row : List Cell) : JRecord := jsReduce (tsStep headers) row 0 []

/-- One data row to one record, as the JavaScript copy computes it. -/
def rowToRecordJS (headers row : List Cell) : JRecord := jsReduce (jsStep headers) row 0 []

/-- The error message thrown for a sheet with invalid headers. -/
def errMsg (name : String) : String := "Invalid or duplicate headers in sheet: " ++ name

/-- The `for (const sheet in spreadsheetData)` loop of `convertToJson`
(TypeScript source): a sheet with at least 2 rows is validated and its data
rows mapped through the row reducer; a shorter sheet contributes an empty
list; an invalid header row throws, discarding everything. -/
def convertSheets : List (String × SheetData) → Except String RecordSet
  | [] => Except.ok []
  | (name, data) :: rest =>
    match data with
    | headers :: r1 :: rs =>
      if validateHeaders headers then
        match convertSheets rest with
        | Except.ok acc => Except.ok ((name, (r1 :: rs).map (rowToRecordTS headers)) :: acc)
        | Except.error e => Except.error e
      else Except.error (errMsg name)
    | _ =>
      match convertSheets rest with
      | Except.ok acc => Except.ok ((name, ([] : List JRecord)) :: acc)
      | Except.error e => Except.error e

/-- `convertToJson` (TypeScript source).  `none` models a null/undefined
argument; the guard also returns `{}` for an object with no keys. -/
def convertToJson : Option (List (String × SheetData)) → Except String RecordSet
  | none => Except.ok []
  | some sheets => if sheets.isEmpty then Except.ok [] else convertSheets sheets

/-- The sheet loop of the JavaScript copy: identical except that the row
reducer uses the `typeof` guard. -/
def convertSheetsJS : List (String × SheetData) → Except String RecordSet
  | [] => Except.ok []
  | (name, data) :: rest =>
    match data with
    | headers :: r1 :: rs =>
      if validateHeaders headers then
        match convertSheetsJS rest with
        | Except.ok acc => Except.ok ((name, (r1 :: rs).map (rowToRecordJS headers)) :: acc)
        | Except.error e => Except.error e
      else Except.error (errMsg name)
    | _ =>
      match convertSheetsJS rest with
      | Except.ok acc => Except.ok ((name, ([] : List JRecord)) :: acc)
      | Except.error e => Except.error e

/-- `convertToJson` of the JavaScript copy. -/
def convertToJsonJS : Option (List (String × SheetData)) → Except String RecordSet
  | none => Except.ok []
  | some sheets => if sheets.isEmpty then Except.ok [] else convertSheetsJS sheets

/-! ### Lemmas about the row reducer -/

/-- If the step function ignores every index at or beyond `n`, the reduce
leaves the accumulator unchanged once the running index has reached `n`. -/
lemma jsReduce_const_of_le (step : JRecord → ℕ → Cell → JRecord) (n : ℕ)
    (hstep : ∀ obj i v, n ≤ i → step obj i v = obj) :
    ∀ (vs : List Cell) (i : ℕ) (obj : JRecord), n ≤ i → jsReduce step vs i obj = obj := by
  intro vs
  induction vs with
  | nil => intro i obj _; rfl
  | cons v vs ih =>
    intro i obj hi
    show jsReduce step vs (i + 1) (step obj i v) = obj
    rw [hstep obj i v hi, ih (i + 1) obj (Nat.le_succ_of_le hi)]

/-- If the step function ignores every index at or beyond `n`, reducing a
row from index `i` only sees its first `n - i` cells. -/
lemma jsReduce_take (step : JRecord → ℕ → Cell → JRecord) (n : ℕ)
    (hstep : ∀ obj i v, n ≤ i → step obj i v = obj) :
    ∀ (vs : List Cell) (i : ℕ) (obj : JRecord),
      jsReduce step vs i obj = jsReduce step (vs.take (n - i)) i obj := by
  intro vs
  induction vs with
  | nil => intro i obj; simp
  | cons v vs ih =>
    intro i obj
    by_cases hi : n ≤ i
    · have h0 : n - i = 0 := Nat.sub_eq_zero_of_le hi
      rw [h0]
      simp only [List.take_zero]
      exact jsReduce_const_of_le step n hstep (v :: vs) i obj hi
    · have hlt : i < n := Nat.lt_of_not_le hi
      have h1 : n - i = (n - (i + 1)) + 1 := by omega
      rw [h1]
      simp only [List.take_succ_cons]
      show jsReduce step vs (i + 1) (step obj i v) =
        jsReduce step (vs.take (n - (i + 1))) (i + 1) (step obj i v)
      exact ih (i + 1) (step obj i v)

lemma tsStep_of_ge (headers : List Cell) (obj : JRecord) (i : ℕ) (v : Cell)
    (hi : headers.length ≤ i) : tsStep headers obj i v = obj := by
  unfold tsStep
  rw [List.get?_eq_none.2 hi]

lemma jsStep_of_ge (headers : List Cell) (obj : JRecord) (i : ℕ) (v : Cell)
    (hi : headers.length ≤ i) : jsStep headers obj i v = obj := by
  unfold jsStep
  rw [List.get?_eq_none.2 hi]

/-! ### Lemmas about value parsing -/

lemma takeWhile_append_all (p : Char → Bool) :
    ∀ l₁ l₂ : List Char, l₁.all p = true →
      (l₁ ++ l₂).takeWhile p = l₁ ++ l₂.takeWhile p := by
  intro l₁
  induction l₁ with
  | nil => intro l₂ _; rfl
  | cons a l ih =>
    intro l₂ hall
    simp only [List.all_cons, Bool.and_eq_true] at hall
    simp [List.takeWhile, hall.1, ih l₂ hall.2, List.cons_append]

lemma takeWhile_digits_concat (pre rest : List Char) (h1 : pre.all Char.isDigit = true) :
    (pre ++ '.' :: rest).takeWhile Char.isDigit = pre := by
  have hdot : Char.isDigit '.' = false := rfl
  rw [takeWhile_append_all _ _ _ h1]
  simp [List.takeWhile, hdot]

lemma matchesIntRe_dot (pre rest : List Char) :
    matchesIntRe ⟨pre ++ '.' :: rest⟩ = false := by
  have hdot : Char.isDigit '.' = false := rfl
  show (!(pre ++ '.' :: rest).isEmpty && (pre ++ '.' :: rest).all Char.isDigit) = false
  simp [List.all_append, hdot]

lemma floatReTest_decomp (pre rest : List Char) (h1 : pre.all Char.isDigit = true) :
    floatReTest (pre ++ '.' :: rest) = (!rest.isEmpty && rest.all Char.isDigit) := by
  unfold floatReTest
  rw [takeWhile_digits_concat pre rest h1, List.drop_left]
  rfl

lemma floatReValChars_decomp (pre rest : List Char) (h1 : pre.all Char.isDigit = true) :
    floatReValChars (pre ++ '.' :: rest) =
      (digitsToNat pre : ℚ) + (digitsToNat rest : ℚ) / (10 : ℚ) ^ rest.length := by
  unfold floatReValChars
  rw [takeWhile_digits_concat pre rest h1, List.drop_left]

/-- The digit fold of `parseInt`, generalized over its accumulator. -/
lemma foldl_digits_eq (l : List Char) :
    ∀ a : ℕ, l.foldl (fun x c => 10 * x + digitVal c) a =
      Nat.ofDigits 10 ((l.map digitVal).reverse) + a * 10 ^ l.length := by
  induction l with
  | nil => intro a; simp [Nat.ofDigits]
  | cons c l ih =>
    intro a
    simp only [List.foldl_cons, List.map_cons, List.reverse_cons, List.length_cons]
    rw [ih (10 * a + digitVal c), Nat.ofDigits_append]
    simp [Nat.ofDigits, List.length_reverse]
    ring

/-- `parseInt(s, 10)` on a digit string is the standard base-10 value of
its digit sequence. -/
lemma digitsToNat_eq_ofDigits (l : List Char) :
    digitsToNat l = Nat.ofDigits 10 ((l.map digitVal).reverse) := by
  unfold digitsToNat
  rw [foldl_digits_eq]
  simp

/-! ### Lemmas about header validation and the sheet loop -/

/-- Specification-level reading of `validateHeadersAux`: every remaining
cell is a non-blank string not yet seen, and no cell repeats. -/
lemma validateHeadersAux_iff (hs : List Cell) :
    ∀ seen : List String,
      validateHeadersAux hs seen = true ↔
        ((∀ c ∈ hs, ∃ s, c = Cell.str s ∧ jsTrim s ≠ "" ∧ s ∉ seen) ∧ hs.Nodup) := by
  induction hs with
  | nil =>
    intro seen
    constructor
    · intro _; exact ⟨fun c hc => absurd hc (List.not_mem_nil c), List.nodup_nil⟩
    · intro _; rfl
  | cons h rest ih =>
    intro seen
    constructor
    · intro hv
      cases h with
      | str s =>
        simp only [validateHeadersAux] at hv
        by_cases h1 : jsTrim s = ""
        · rw [if_pos h1] at hv; exact absurd hv (by simp)
        rw [if_neg h1] at hv
        by_cases h2 : seen.contains s
        · rw [if_pos h2] at hv; exact absurd hv (by simp)
        rw [if_neg h2] at hv
        obtain ⟨hall, hnd⟩ := (ih (s :: seen)).1 hv
        have hs_not : s ∉ seen := by
          intro hmem; exact h2 (List.elem_iff.2 hmem)
        refine ⟨?_, ?_⟩
        · intro c hc
          rcases List.mem_cons.1 hc with rfl | hc'
          · exact ⟨s, rfl, h1, hs_not⟩
          · obtain ⟨t, rfl, ht1, ht2⟩ := hall c hc'
            exact ⟨t, rfl, ht1, fun hmem => ht2 (List.mem_cons_of_mem _ hmem)⟩
        · refine List.nodup_cons.2 ⟨?_, hnd⟩
          intro hmem
          obtain ⟨t, heq, _, ht2⟩ := hall _ hmem
          cases heq
          exact ht2 (List.mem_cons_self _ _)
      | num q => exact absurd hv (by simp [validateHeadersAux])
      | bool b => exact absurd hv (by simp [validateHeadersAux])
      | null => exact absurd hv (by simp [validateHeadersAux])
    · rintro ⟨hall, hnd⟩
      obtain ⟨t, heq, ht1, ht2⟩ := hall h (List.mem_cons_self _ _)
      subst heq
      simp only [validateHeadersAux]
      rw [if_neg ht1, if_neg (fun hc => ht2 (List.elem_iff.1 hc))]
      apply (ih (t :: seen)).2
      refine ⟨?_, (List.nodup_cons.1 hnd).2⟩
      intro c hc
      obtain ⟨u, rfl, hu1, hu2⟩ := hall c (List.mem_cons_of_mem _ hc)
      refine ⟨u, rfl, hu1, ?_⟩
      intro hmem
      rcases List.mem_cons.1 hmem with rfl | hmem'
      · exact (List.nodup_cons.1 hnd).1 hc
      · exact hu2 hmem'

/-- Specification-level reading of `validateHeaders`: all cells are strings
that are non-empty after trimming, and no raw string repeats. -/
lemma validateHeaders_iff (hs : List Cell) :
    validateHeaders hs = true ↔
      ((∀ c ∈ hs, ∃ s, c = Cell.str s ∧ jsTrim s ≠ "") ∧ hs.Nodup) := by
  rw [validateHeaders, validateHeadersAux_iff]
  simp

/-- A sheet that makes the converter throw: at least two rows, and a header
row failing `validateHeaders`. -/
def sheetInvalid (p : String × SheetData) : Prop :=
  ∃ headers r1 rs, p.2 = headers :: r1 :: rs ∧ validateHeaders headers = false

lemma convertSheets_cons_ok (name : String) (data : SheetData)
    (rest : List (String × SheetData)) (acc : RecordSet)
    (h : convertSheets ((name, data) :: rest) = Except.ok acc) :
    ∃ acc', convertSheets rest = Except.ok acc' := by
  cases data with
  | nil =>
    simp only [convertSheets] at h
    cases hr : convertSheets rest with
    | ok a => exact ⟨a, rfl⟩
    | error e => rw [hr] at h; exact absurd h (by simp)
  | cons headers t =>
    cases t with
    | nil =>
      simp only [convertSheets] at h
      cases hr : convertSheets rest with
      | ok a => exact ⟨a, rfl⟩
      | error e => rw [hr] at h; exact absurd h (by simp)
    | cons r1 rs =>
      by_cases hv : validateHeaders headers = true
      · simp only [convertSheets, hv, if_true] at h
        cases hr : convertSheets rest with
        | ok a => exact ⟨a, rfl⟩
        | error e => rw [hr] at h; exact absurd h (by simp)
      · simp only [convertSheets, hv, if_false] at h
        exact absurd h (by simp)

/-- A successful conversion means no sheet was invalid. -/
lemma convertSheets_ok_all_valid :
    ∀ (input : List (String × SheetData)) (acc : RecordSet),
      convertSheets input = Except.ok acc → ∀ p ∈ input, ¬ sheetInvalid p := by
  intro input
  induction input with
  | nil => intro acc _ p hp; exact absurd hp (List.not_mem_nil p)
  | cons q rest ih =>
    obtain ⟨name, data⟩ := q
    intro acc hok p hp
    rcases List.mem_cons.1 hp with rfl | hp'
    · rintro ⟨headers, r1, rs, heq, hv⟩
      dsimp only at heq
      subst heq
      simp [convertSheets, hv] at hok
    · obtain ⟨acc', hr⟩ := convertSheets_cons_ok name data rest acc hok
      exact ih acc' hr p hp'

/-- An error from the sheet loop names the first offending sheet. -/
lemma convertSheets_error_names_sheet :
    ∀ (input : List (String × SheetData)) (e : String),
      convertSheets input = Except.error e →
      ∃ p ∈ input, sheetInvalid p ∧ e = errMsg p.1 := by
  intro input
  induction input with
  | nil => intro e h; exact absurd h (by simp [convertSheets])
  | cons q rest ih =>
    obtain ⟨name, data⟩ := q
    intro e h
    cases data with
    | nil =>
      simp only [convertSheets] at h
      cases hr : convertSheets rest with
      | ok a => rw [hr] at h; exact absurd h (by simp)
      | error e' =>
        rw [hr] at h
        simp only [Except.error.injEq] at h
        obtain ⟨p, hp, hinv, he⟩ := ih e' hr
        exact ⟨p, List.mem_cons_of_mem _ hp, hinv, h ▸ he⟩
    | cons headers t =>
      cases t with
      | nil =>
        simp only [convertSheets] at h
        cases hr : convertSheets rest with
        | ok a => rw [hr] at h; exact absurd h (by simp)
        | error e' =>
          rw [hr] at h
          simp only [Except.error.injEq] at h
          obtain ⟨p, hp, hinv, he⟩ := ih e' hr
          exact ⟨p, List.mem_cons_of_mem _ hp, hinv, h ▸ he⟩
      | cons r1 rs =>
        by_cases hv : validateHeaders headers = true
        · simp only [convertSheets, hv, if_true] at h
          cases hr : convertSheets rest with
          | ok a => rw [hr] at h; exact absurd h (by simp)
          | error e' =>
            rw [hr] at h
            simp only [Except.error.injEq] at h
            obtain ⟨p, hp, hinv, he⟩ := ih e' hr
            exact ⟨p, List.mem_cons_of_mem _ hp, hinv, h ▸ he⟩
        · have hv' : validateHeaders headers = false := by
            revert hv; cases validateHeaders headers <;> simp
          simp [convertSheets, hv'] at h
          exact ⟨(name, headers :: r1 :: rs), List.mem_cons_self _ _,
            ⟨headers, r1, rs, rfl, hv'⟩, h.symm⟩

/-- If every sheet is valid the loop succeeds. -/
lemma convertSheets_ok_of_all_valid :
    ∀ input : List (String × SheetData),
      (∀ p ∈ input, ¬ sheetInvalid p) → ∃ acc, convertSheets input = Except.ok acc := by
  intro input
  induction input with
  | nil => exact fun _ => ⟨[], rfl⟩
  | cons q rest ih =>
    obtain ⟨name, data⟩ := q
    intro hall
    obtain ⟨acc', hr⟩ := ih (fun p hp => hall p (List.mem_cons_of_mem _ hp))
    cases data with
    | nil => exact ⟨(name, []) :: acc', by simp [convertSheets, hr]⟩
    | cons headers t =>
      cases t with
      | nil => exact ⟨(name, []) :: acc', by simp [convertSheets, hr]⟩
      | cons r1 rs =>
        have hv : validateHeaders headers = true := by
          by_contra hv
          have hv' : validateHeaders headers = false := by
            revert hv; cases validateHeaders headers <;> simp
          exact hall (name, headers :: r1 :: rs) (List.mem_cons_self _ _)
            ⟨headers, r1, rs, rfl, hv'⟩
        exact ⟨(name, (r1 :: rs).map (rowToRecordTS headers)) :: acc',
          by simp [convertSheets, hv, hr]⟩

/-- For any actual list of sheets the top-level guard is invisible. -/
lemma convertToJson_some (input : List (String × SheetData)) :
    convertToJson (some input) = convertSheets input := by
  cases input with
  | nil => rfl
  | cons q rest => rfl

/-! ### Claim theorems -/

/-- C1: the claim says each record's key set equals the header texts, but
the TypeScript source guards key emission with `headers[index] === "string"`
(a value comparison), so for the sheet `[["Name"], ["Alice"]]` — which has a
valid header row — the produced record has NO keys at all.  The repository's
JavaScript copy of the class, whose guard is
`typeof headers[index] === "string"`, produces the claimed record. -/
theorem C1_ts_convert_drops_header_keys :
    convertToJson (some [("S", [[Cell.str "Name"], [Cell.str "Alice"]])]) =
      Except.ok [("S", [[]])] ∧
    convertToJsonJS (some [("S", [[Cell.str "Name"], [Cell.str "Alice"]])]) =
      Except.ok [("S", [[("Name", Cell.str "Alice")]])] :=
  ⟨rfl, rfl⟩

/-- C2: the claim says the guard in the row-to-record loop is a type check
that is always true after header validation, and hence behaviourally inert.
In the TypeScript source the guard is the strict equality
`headers[index] === "string"`: on the validated header row `["Name"]` it is
false, and the guarded conversion differs observably from the type-guarded
conversion of the repository's JavaScript copy. -/
theorem C2_guard_is_not_a_noop :
    validateHeaders [Cell.str "Name"] = true ∧
    List.get? [Cell.str "Name"] 0 ≠ some (Cell.str "string") ∧
    rowToRecordTS [Cell.str "Name"] [Cell.str "Alice"] = [] ∧
    rowToRecordJS [Cell.str "Name"] [Cell.str "Alice"] = [("Name", Cell.str "Alice")] :=
  ⟨rfl, by decide, rfl, rfl⟩

/-- C3: on the end-to-end example the TypeScript source returns two EMPTY
records for Sheet1 (its guard `headers[index] === "string"` never fires),
while the repository's JavaScript copy returns exactly the claimed records
with parsed values. -/
theorem C3_end_to_end_example :
    convertToJson (some [("Sheet1",
        [[Cell.str "Name", Cell.str "Age", Cell.str "Active"],
         [Cell.str "Alice", Cell.str "30", Cell.str "true"],
         [Cell.str "Bob", Cell.str "25", Cell.str "false"]])]) =
      Except.ok [("Sheet1", [[], []])] ∧
    convertToJsonJS (some [("Sheet1",
        [[Cell.str "Name", Cell.str "Age", Cell.str "Active"],
         [Cell.str "Alice", Cell.str "30", Cell.str "true"],
         [Cell.str "Bob", Cell.str "25", Cell.str "false"]])]) =
      Except.ok [("Sheet1",
        [[("Name", Cell.str "Alice"), ("Age", Cell.num 30), ("Active", Cell.bool true)],
         [("Name", Cell.str "Bob"), ("Age", Cell.num 25), ("Active", Cell.bool false)]])] :=
  ⟨rfl, rfl⟩

/-- C4: conversion throws, returning no result for any sheet, exactly when
some sheet with at least two rows has a header row violating validation
(some cell not a string, some cell blank after trimming, or a raw duplicate
— cell-list `Nodup` is raw-string uniqueness since all cells are strings);
the error message names an offending sheet; and headers differing only in
surrounding whitespace, such as `" Name"` versus `"Name"`, are not
duplicates. -/
theorem C4_error_iff_invalid_headers :
    (∀ input : List (String × SheetData),
        (∃ e, convertToJson (some input) = Except.error e) ↔
          ∃ p ∈ input, ∃ headers r1 rs, p.2 = headers :: r1 :: rs ∧
            ¬ ((∀ c ∈ headers, ∃ s, c = Cell.str s ∧ jsTrim s ≠ "") ∧ headers.Nodup)) ∧
    (∀ (input : List (String × SheetData)) (e : String),
        convertToJson (some input) = Except.error e →
        ∃ p ∈ input, sheetInvalid p ∧ e = errMsg p.1) ∧
    validateHeaders [Cell.str " Name", Cell.str "Name"] = true := by
  have hbridge : ∀ headers : List Cell,
      validateHeaders headers = false ↔
        ¬ ((∀ c ∈ headers, ∃ s, c = Cell.str s ∧ jsTrim s ≠ "") ∧ headers.Nodup) := by
    intro headers
    rw [← validateHeaders_iff]
    cases validateHeaders headers <;> simp
  refine ⟨?_, ?_, rfl⟩
  · intro input
    rw [convertToJson_some]
    constructor
    · rintro ⟨e, he⟩
      obtain ⟨p, hp, ⟨headers, r1, rs, heq, hv⟩, _⟩ :=
        convertSheets_error_names_sheet input e he
      exact ⟨p, hp, headers, r1, rs, heq, (hbridge headers).1 hv⟩
    · rintro ⟨p, hp, headers, r1, rs, heq, hnspec⟩
      cases hc : convertSheets input with
      | error e => exact ⟨e, rfl⟩
      | ok acc =>
        exact absurd ⟨headers, r1, rs, heq, (hbridge headers).2 hnspec⟩
          (convertSheets_ok_all_valid input acc hc p hp)
  · intro input e he
    rw [convertToJson_some] at he
    exact convertSheets_error_names_sheet input e he

/-- C4 witness: a sheet whose header row contains a numeric cell makes the
converter throw the error naming that sheet. -/
theorem C4_error_iff_invalid_headers_witness :
    ∃ p ∈ ([("S", [[Cell.num 1], []])] : List (String × SheetData)),
      sheetInvalid p ∧ errMsg "S" = errMsg p.1 :=
  C4_error_iff_invalid_headers.2.1 [("S", [[Cell.num 1], []])] (errMsg "S") rfl

/-- C5: a digit-only text cell parses to its base-10 integer (`"42"` to 42,
`"007"` to 7); a `\d*.\d+` text cell parses to the exact decimal value of
its digits (`".5"` to 1/2, `"3.14"` to 157/50, and in general prefix plus
fraction over a power of ten); and `"5."`, `"-3"`, `"1e5"` stay text. -/
theorem C5_numeric_parsing :
    (∀ s : String, matchesIntRe s = true →
        parseValue (Cell.str s) =
          Cell.num ((Nat.ofDigits 10 ((s.data.map digitVal).reverse) : ℕ) : ℚ)) ∧
    (∀ pre rest : List Char, pre.all Char.isDigit = true → rest ≠ [] →
        rest.all Char.isDigit = true →
        parseValue (Cell.str ⟨pre ++ '.' :: rest⟩) =
          Cell.num ((digitsToNat pre : ℚ) + (digitsToNat rest : ℚ) / (10 : ℚ) ^ rest.length)) ∧
    parseValue (Cell.str "42") = Cell.num 42 ∧
    parseValue (Cell.str "007") = Cell.num 7 ∧
    parseValue (Cell.str ".5") = Cell.num (1 / 2) ∧
    parseValue (Cell.str "3.14") = Cell.num (157 / 50) ∧
    parseValue (Cell.str "5.") = Cell.str "5." ∧
    parseValue (Cell.str "-3") = Cell.str "-3" ∧
    parseValue (Cell.str "1e5") = Cell.str "1e5" := by
  refine ⟨?_, ?_, rfl, rfl, ?_, ?_, rfl, rfl, rfl⟩
  · intro s h
    simp only [parseValue, h, if_true]
    rw [digitsToNat_eq_ofDigits]
  · intro pre rest h1 h2 h3
    have hi : matchesIntRe ⟨pre ++ '.' :: rest⟩ = false := matchesIntRe_dot pre rest
    have hne : rest.isEmpty = false := by
      cases rest with
      | nil => exact absurd rfl h2
      | cons a l => rfl
    have hf : matchesFloatRe ⟨pre ++ '.' :: rest⟩ = true := by
      rw [show matchesFloatRe ⟨pre ++ '.' :: rest⟩ = floatReTest (pre ++ '.' :: rest) from rfl,
        floatReTest_decomp pre rest h1, hne, h3]
      rfl
    have hv : floatReVal ⟨pre ++ '.' :: rest⟩ =
        (digitsToNat pre : ℚ) + (digitsToNat rest : ℚ) / (10 : ℚ) ^ rest.length := by
      rw [show floatReVal ⟨pre ++ '.' :: rest⟩ = floatReValChars (pre ++ '.' :: rest) from rfl,
        floatReValChars_decomp pre rest h1]
    simp [parseValue, hi, hf, hv]
  · show Cell.num (((0 : ℕ) : ℚ) + ((5 : ℕ) : ℚ) / (10 : ℚ) ^ (1 : ℕ)) = Cell.num (1 / 2)
    simp only [Cell.num.injEq]
    norm_num
  · show Cell.num (((3 : ℕ) : ℚ) + ((14 : ℕ) : ℚ) / (10 : ℚ) ^ (2 : ℕ)) = Cell.num (157 / 50)
    simp only [Cell.num.injEq]
    norm_num

/-- C5 witness: the integer rule applied at the concrete input `"42"`. -/
theorem C5_numeric_parsing_witness :
    parseValue (Cell.str "42") =
      Cell.num ((Nat.ofDigits 10 (("42".data.map digitVal).reverse) : ℕ) : ℚ) :=
  C5_numeric_parsing.1 "42" rfl

/-- C6: null parses to null; text equal to "true"/"false" case-insensitively
(and not matching the numeric patterns) parses to the boolean; cells already
typed as numbers or booleans, and any non-matching text, pass through
unchanged. -/
theorem C6_null_bool_passthrough :
    parseValue Cell.null = Cell.null ∧
    (∀ s : String, matchesIntRe s = false → matchesFloatRe s = false →
        jsToLower s = "true" → parseValue (Cell.str s) = Cell.bool true) ∧
    (∀ s : String, matchesIntRe s = false → matchesFloatRe s = false →
        jsToLower s = "false" → parseValue (Cell.str s) = Cell.bool false) ∧
    (∀ q : ℚ, parseValue (Cell.num q) = Cell.num q) ∧
    (∀ b : Bool, parseValue (Cell.bool b) = Cell.bool b) ∧
    (∀ s : String, matchesIntRe s = false → matchesFloatRe s = false →
        jsToLower s ≠ "true" → jsToLower s ≠ "false" →
        parseValue (Cell.str s) = Cell.str s) := by
  refine ⟨rfl, ?_, ?_, fun q => rfl, fun b => rfl, ?_⟩
  · intro s h1 h2 h3
    simp [parseValue, h1, h2, h3]
  · intro s h1 h2 h3
    have : jsToLower s ≠ "true" := by rw [h3]; decide
    simp [parseValue, h1, h2, h3, this]
  · intro s h1 h2 h3 h4
    simp [parseValue, h1, h2, h3, h4]

/-- C6 witness: the case-insensitive boolean rule applied at `"TRUE"`. -/
theorem C6_null_bool_passthrough_witness :
    parseValue (Cell.str "TRUE") = Cell.bool true :=
  C6_null_bool_passthrough.2.1 "TRUE" rfl rfl rfl

/-- C7: a sheet with fewer than two rows contributes an empty record list
and cannot cause an error — its content is never validated — and in any
successful conversion every such sheet's entry is the empty list. -/
theorem C7_short_sheets_empty :
    (∀ (name : String) (data : SheetData) (rest : List (String × SheetData)),
        data.length < 2 →
        convertSheets ((name, data) :: rest) =
          Except.map (fun acc => ((name, ([] : List JRecord)) :: acc)) (convertSheets rest)) ∧
    (∀ (input : List (String × SheetData)) (acc : RecordSet),
        convertSheets input = Except.ok acc →
        ∀ p ∈ input, p.2.length < 2 → (p.1, ([] : List JRecord)) ∈ acc) := by
  constructor
  · intro name data rest hlen
    cases data with
    | nil => cases hr : convertSheets rest <;> simp [convertSheets, hr, Except.map]
    | cons headers t =>
      cases t with
      | nil => cases hr : convertSheets rest <;> simp [convertSheets, hr, Except.map]
      | cons r1 rs => simp at hlen; omega
  · intro input
    induction input with
    | nil => intro acc _ p hp; exact absurd hp (List.not_mem_nil p)
    | cons q rest ih =>
      obtain ⟨name, data⟩ := q
      intro acc hok p hp hlen
      cases data with
      | nil =>
        cases hr : convertSheets rest with
        | error e => simp [convertSheets, hr] at hok
        | ok acc' =>
          simp [convertSheets, hr] at hok
          rcases List.mem_cons.1 hp with rfl | hp'
          · exact hok ▸ List.mem_cons_self _ _
          · exact hok ▸ List.mem_cons_of_mem _ (ih acc' hr p hp' hlen)
      | cons headers t =>
        cases t with
        | nil =>
          cases hr : convertSheets rest with
          | error e => simp [convertSheets, hr] at hok
          | ok acc' =>
            simp [convertSheets, hr] at hok
            rcases List.mem_cons.1 hp with rfl | hp'
            · exact hok ▸ List.mem_cons_self _ _
            · exact hok ▸ List.mem_cons_of_mem _ (ih acc' hr p hp' hlen)
        | cons r1 rs =>
          by_cases hv : validateHeaders headers = true
          · cases hr : convertSheets rest with
            | error e => simp [convertSheets, hr, hv] at hok
            | ok acc' =>
              simp [convertSheets, hr, hv] at hok
              rcases List.mem_cons.1 hp with rfl | hp'
              · simp only [List.length_cons] at hlen; omega
              · exact hok ▸ List.mem_cons_of_mem _ (ih acc' hr p hp' hlen)
          · have hv' : validateHeaders headers = false := by
              revert hv; cases validateHeaders headers <;> simp
            simp [convertSheets, hv'] at hok

/-- C7 witness: a sheet with zero rows converts to an empty record list
without error. -/
theorem C7_short_sheets_empty_witness :
    convertSheets [("S", ([] : SheetData))] = Except.ok [("S", ([] : List JRecord))] := by
  have h := C7_short_sheets_empty.1 "S" [] [] (by simp)
  rw [h]; rfl

/-- C8: a null/undefined argument and an object with no sheet entries both
convert to the empty record set, with no error. -/
theorem C8_malformed_input_empty_result :
    convertToJson none = Except.ok [] ∧
    convertToJson (some []) = Except.ok [] :=
  ⟨rfl, rfl⟩

/-- C9: conversion is a pure function of its input, so two applications to
the same sheet set are structurally equal. -/
theorem C9_convert_deterministic :
    ∀ input : Option (List (String × SheetData)), convertToJson input = convertToJson input :=
  fun _ => rfl

/-- C10: cell positions at or beyond the header row's length never
contribute a key: a data row converts exactly as its truncation to the
header row's length does, in the TypeScript source and in the JavaScript
copy alike, and the out-of-range header lookup is a total `Option`-valued
lookup, never a failure. -/
theorem C10_long_rows_truncated :
    (∀ headers row : List Cell,
        rowToRecordTS headers row = rowToRecordTS headers (row.take headers.length)) ∧
    (∀ headers row : List Cell,
        rowToRecordJS headers row = rowToRecordJS headers (row.take headers.length)) := by
  constructor
  · intro headers row
    have h := jsReduce_take (tsStep headers) headers.length
      (tsStep_of_ge headers) row 0 []
    simpa [rowToRecordTS] using h
  · intro headers row
    have h := jsReduce_take (jsStep headers) headers.length
      (jsStep_of_ge headers) row 0 []
    simpa [rowToRecordJS] using h

end Sheet2Json
